import Mathlib

/-!
Verification of the note-selection query subsystem of notemancy-core:
the DSL tokenizer and recursive-descent parser (`src/query_parser.rs`),
the native AST evaluator over note metadata (`src/query_native.rs`),
and the jq filter compiler (`build_jq_expression` in `src/query_parser.rs`)
together with a model of the jq semantics of the compiled filter string
as described by the external-pipeline contract of the specification.

The Rust tokenizer drives a `while let Some(&c) = chars.peek()` loop whose
termination is not structural (and, in fact, fails on some inputs), so the
tokenizer and the mutually recursive parser functions are embedded with an
explicit fuel parameter: `none` / an "out of fuel" error means the given
fuel did not suffice.  All other functions are direct translations.
-/

namespace Notemancy

/-- Token type, from `src/query_parser.rs` (`enum Token`). -/
inductive Token where
  | Identifier (s : String)
  | Operator (s : String)
  | StringLiteral (s : String)
  | And
  | Or
  | Not
  | LParen
  | RParen
deriving DecidableEq, Repr

/-- Rust's `str::to_lowercase`, as the tokenizer, the native evaluator
and the filter compiler use it.  Rust's lowercasing is Unicode-aware;
this embedding maps `Char.toLower` over the characters, which agrees
with it on all ASCII input (every concrete input used in the theorems
below is ASCII).  Implemented over `String.data` so that it evaluates
inside the kernel. -/
def to_lowercase (s : String) : String :=
  String.mk (s.data.map Char.toLower)

/-- Rust's `&str` comparison (`<`), which is lexicographic: byte order on
UTF-8, equivalently codepoint-lexicographic order on the characters.
Implemented over `String.data` so that it evaluates inside the kernel. -/
def strLt (a b : String) : Bool :=
  decide (a.data < b.data)

/-- The function `is_operator_char` from `src/query_parser.rs`. -/
def is_operator_char (c : Char) : Bool :=
  c == '=' || c == '!' || c == '>' || c == '<'

/-- The character class of the tokenizer's identifier loop
(`ch.is_alphanumeric() || ch == '_' || ch == '-'`).  Rust's
`char::is_alphanumeric` is Unicode-aware; this embedding uses the
ASCII-alphanumeric predicate, which agrees with it on all ASCII input
(every concrete input used in the theorems below is ASCII). -/
def identRunChar (c : Char) : Bool :=
  c.isAlphanum || c == '_' || c == '-'

/-- The string-literal loop of the tokenizer: after an opening `"`,
consume characters verbatim up to (and including) the closing `"`,
or to end of input if the literal is unterminated.  Returns the literal's
characters and the remaining input. -/
def takeLit : List Char → List Char × List Char
  | [] => ([], [])
  | c :: cs =>
    if c == '"' then ([], cs)
    else
      let (l, r) := takeLit cs
      (c :: l, r)

/-- Keyword classification of an identifier run
(`match ident.to_lowercase().as_str()`). -/
def identToken (s : String) : Token :=
  if to_lowercase s == "and" then Token.And
  else if to_lowercase s == "or" then Token.Or
  else if to_lowercase s == "not" then Token.Not
  else Token.Identifier s

/-- The function `tokenize` from `src/query_parser.rs`, with fuel.  One unit of fuel is
spent per iteration of the Rust `while let Some(&c) = chars.peek()` loop;
`none` means the loop had not finished after the given number of
iterations.  Note that the identifier branch mirrors the Rust code
exactly: the run is `takeWhile identRunChar` starting **at** the peeked
character, so when that character is not an identifier character the run
is empty and no input is consumed. -/
def tokenizeF : Nat → List Char → Option (List Token)
  | 0, _ => none
  | _ + 1, [] => some []
  | fuel + 1, c :: cs =>
    if c.isWhitespace then tokenizeF fuel cs
    else if c == '(' then (tokenizeF fuel cs).map (Token.LParen :: ·)
    else if c == ')' then (tokenizeF fuel cs).map (Token.RParen :: ·)
    else if c == '"' then
      let (lit, rest) := takeLit cs
      (tokenizeF fuel rest).map (Token.StringLiteral (String.mk lit) :: ·)
    else if is_operator_char c then
      match cs with
      | c2 :: cs2 =>
        if is_operator_char c2 then
          (tokenizeF fuel cs2).map (Token.Operator (String.mk [c, c2]) :: ·)
        else
          (tokenizeF fuel cs).map (Token.Operator (String.mk [c]) :: ·)
      | [] => (tokenizeF fuel []).map (Token.Operator (String.mk [c]) :: ·)
    else
      let run := (c :: cs).takeWhile identRunChar
      let rest := (c :: cs).dropWhile identRunChar
      (tokenizeF fuel rest).map (identToken (String.mk run) :: ·)

/-- Expression AST, from `src/query_parser.rs` (`enum Expr`). -/
inductive Expr where
  | Condition (field : String) (op : String) (value : String)
  | And (lhs : Expr) (rhs : Expr)
  | Or (lhs : Expr) (rhs : Expr)
  | Not (inner : Expr)
deriving DecidableEq, Repr

/-- Parser results: the parsed expression together with the unconsumed
tokens, or a parse-error message. -/
abbrev PResult := Except String (Expr × List Token)

/-- The method `Parser::parse_condition`: field identifier, operator, then a value
that may be an identifier or a string literal. -/
def parse_condition (ts : List Token) : PResult :=
  match ts with
  | Token.Identifier f :: rest1 =>
    match rest1 with
    | Token.Operator o :: rest2 =>
      match rest2 with
      | Token.Identifier v :: rest3 => .ok (Expr.Condition f o v, rest3)
      | Token.StringLiteral v :: rest3 => .ok (Expr.Condition f o v, rest3)
      | _ => .error "Expected value"
    | _ => .error "Expected operator"
  | _ => .error "Expected field name"

/-- The `match self.tokens.next() { Some(Token::RParen) => .., _ => Err }`
step at the end of `parse_primary`'s parenthesis branch. -/
def expect_rparen (e : Expr) : List Token → PResult
  | [] => .error "Expected closing parenthesis"
  | t :: rest =>
    if t = Token.RParen then .ok (e, rest)
    else .error "Expected closing parenthesis"

mutual

/-- The method `Parser::parse_or` (which is also `parse_expression`): a left
associative chain of `or` over `and`-expressions.  Rust's `?` operator
is `Except.bind`. -/
def parse_or : Nat → List Token → PResult
  | 0, _ => .error "out of fuel"
  | fuel + 1, ts =>
    (parse_and fuel ts).bind fun p => parse_or_rest fuel p.1 p.2

/-- The `while let Some(Token::Or) = self.tokens.peek()` loop of
`parse_or`. -/
def parse_or_rest : Nat → Expr → List Token → PResult
  | 0, _, _ => .error "out of fuel"
  | _ + 1, acc, [] => .ok (acc, [])
  | fuel + 1, acc, t :: rest =>
    if t = Token.Or then
      (parse_and fuel rest).bind fun p => parse_or_rest fuel (Expr.Or acc p.1) p.2
    else .ok (acc, t :: rest)

/-- The method `Parser::parse_and`: a left-associative chain of `and` over unary
expressions. -/
def parse_and : Nat → List Token → PResult
  | 0, _ => .error "out of fuel"
  | fuel + 1, ts =>
    (parse_unary fuel ts).bind fun p => parse_and_rest fuel p.1 p.2

/-- The `while let Some(Token::And) = self.tokens.peek()` loop of
`parse_and`. -/
def parse_and_rest : Nat → Expr → List Token → PResult
  | 0, _, _ => .error "out of fuel"
  | _ + 1, acc, [] => .ok (acc, [])
  | fuel + 1, acc, t :: rest =>
    if t = Token.And then
      (parse_unary fuel rest).bind fun p => parse_and_rest fuel (Expr.And acc p.1) p.2
    else .ok (acc, t :: rest)

/-- The method `Parser::parse_unary`: any number of `not` prefixes over a primary. -/
def parse_unary : Nat → List Token → PResult
  | 0, _ => .error "out of fuel"
  | fuel + 1, [] => parse_primary fuel []
  | fuel + 1, t :: rest =>
    if t = Token.Not then
      (parse_unary fuel rest).bind fun p => .ok (Expr.Not p.1, p.2)
    else parse_primary fuel (t :: rest)

/-- The method `Parser::parse_primary`: a parenthesized expression or a condition. -/
def parse_primary : Nat → List Token → PResult
  | 0, _ => .error "out of fuel"
  | _ + 1, [] => parse_condition []
  | fuel + 1, t :: rest =>
    if t = Token.LParen then
      (parse_or fuel rest).bind fun p => expect_rparen p.1 p.2
    else parse_condition (t :: rest)

end

/-- The function `parse_query` restricted to an already-tokenized stream: runs
`parse_expression` and, exactly as the Rust code does, discards whatever
tokens remain unconsumed. -/
def parse_query_tokens (fuel : Nat) (ts : List Token) : Except String Expr :=
  match parse_or fuel ts with
  | .error e => .error e
  | .ok (e, _) => .ok e

/-- The function `parse_query` from `src/query_parser.rs`: tokenize, then parse,
ignoring trailing tokens. -/
def parse_query (fuel : Nat) (input : String) : Except String Expr :=
  match tokenizeF fuel input.toList with
  | none => .error "tokenizer out of fuel"
  | some toks => parse_query_tokens fuel toks

/-- The struct `NoteMetadata` from `src/query_native.rs`. -/
structure NoteMetadata where
  path : String
  title : String
  date : Option String
  tags : List String
deriving DecidableEq, Repr

/-- The function `evaluate_expr` from `src/query_native.rs`: evaluates the AST on one
note-metadata record.  String comparisons for dates use the lexicographic
(character-codepoint) order, the order Rust's `&str` comparisons use. -/
def evaluate_expr (note : NoteMetadata) : Expr → Bool
  | Expr.Condition field op value =>
    if to_lowercase field == "tag" then
      if op == "=" then note.tags.any (fun t => t == value)
      else if op == "!=" then !(note.tags.any (fun t => t == value))
      else false
    else if to_lowercase field == "date" then
      match note.date with
      | some noteDate =>
        if op == "=" then noteDate == value
        else if op == "!=" then noteDate != value
        else if op == ">=" then !(strLt noteDate value)
        else if op == "<=" then !(strLt value noteDate)
        else if op == ">" then strLt value noteDate
        else if op == "<" then strLt noteDate value
        else false
      | none => false
    else if to_lowercase field == "title" then
      if op == "=" then note.title == value
      else if op == "!=" then note.title != value
      else false
    else false
  | Expr.And lhs rhs => evaluate_expr note lhs && evaluate_expr note rhs
  | Expr.Or lhs rhs => evaluate_expr note lhs || evaluate_expr note rhs
  | Expr.Not inner => !(evaluate_expr note inner)

/-- The pure core of `query_notes_native` from `src/query_native.rs`:
keep the records on which the AST evaluates to true and project each to
its `(path, title)` pair.  (The Rust function additionally loads the
corpus from disk and runs the filter in parallel via rayon; the corpus is
taken here as an explicit argument.) -/
def query_notes_native (ast : Expr) (notes : List NoteMetadata) :
    List (String × String) :=
  (notes.filter (fun note => evaluate_expr note ast)).map
    (fun note => (note.path, note.title))

/-- The function `build_jq_expression` from `src/query_parser.rs`: compiles the AST to
a jq filter string.  Field names and values are interpolated verbatim. -/
def build_jq_expression : Expr → String
  | Expr.Condition field op value =>
    if to_lowercase field == "tag" then
      if op == "=" then "(.tags | index(\"" ++ value ++ "\") != null)"
      else if op == "!=" then "(.tags | index(\"" ++ value ++ "\") == null)"
      else "." ++ field ++ " " ++ op ++ " \"" ++ value ++ "\""
    else "." ++ field ++ " " ++ op ++ " \"" ++ value ++ "\""
  | Expr.And lhs rhs =>
    "(" ++ build_jq_expression lhs ++ " and " ++ build_jq_expression rhs ++ ")"
  | Expr.Or lhs rhs =>
    "(" ++ build_jq_expression lhs ++ " or " ++ build_jq_expression rhs ++ ")"
  | Expr.Not (Expr.Condition field op value) =>
    if to_lowercase field == "tag" && op == "=" then
      "(.tags | index(\"" ++ value ++ "\") == null)"
    else
      "(" ++ build_jq_expression (Expr.Condition field op value) ++ " | not)"
  | Expr.Not inner => "(" ++ build_jq_expression inner ++ " | not)"

/-! ## The compiled-filter path

`query_notes` in `src/query.rs` wraps `build_jq_expression`'s output in
`map(select(...)) | map({path: .path, title: .title})` and runs it with
the external `jq` tool over one JSON object per note.  The jq tool itself
is not part of this repository; its evaluation of the compiled string is
modelled below, following the pipeline contract of the specification
(each note presented as a JSON object with `path`, `title`, `tags`, and
optional `date`). -/

/-- Modelled from the spec: the JSON values that can appear while jq
evaluates a compiled filter over a note object of the shape fixed in §6
of the specification — `null`, booleans, strings, and the string array
`.tags`. -/
inductive JqVal where
  | vnull
  | vbool (b : Bool)
  | vstr (s : String)
  | vstrArr (a : List String)
deriving DecidableEq, Repr

/-- Modelled from the spec: jq equality (`==`) on the values above —
structural, false across different types. -/
def jqEq : JqVal → JqVal → Bool
  | JqVal.vnull, JqVal.vnull => true
  | JqVal.vbool a, JqVal.vbool b => a == b
  | JqVal.vstr a, JqVal.vstr b => a == b
  | JqVal.vstrArr a, JqVal.vstrArr b => a == b
  | _, _ => false

/-- Modelled from the spec: jq's total order on values, restricted to the
values above: `null < booleans < strings < arrays`, `false < true`,
strings by codepoint-lexicographic order, arrays lexicographically. -/
def jqLess : JqVal → JqVal → Bool
  | JqVal.vnull, JqVal.vnull => false
  | JqVal.vnull, _ => true
  | JqVal.vbool _, JqVal.vnull => false
  | JqVal.vbool a, JqVal.vbool b => !a && b
  | JqVal.vbool _, _ => true
  | JqVal.vstr _, JqVal.vnull => false
  | JqVal.vstr _, JqVal.vbool _ => false
  | JqVal.vstr a, JqVal.vstr b => strLt a b
  | JqVal.vstr _, JqVal.vstrArr _ => true
  | JqVal.vstrArr _, JqVal.vnull => false
  | JqVal.vstrArr _, JqVal.vbool _ => false
  | JqVal.vstrArr _, JqVal.vstr _ => false
  | JqVal.vstrArr a, JqVal.vstrArr b => decide (a.map String.data < b.map String.data)

/-- Modelled from the spec: field access `.field` on the note object the
pipeline supplies (`path`, `title`, `tags`, optional `date`); any other
field name yields `null`. -/
def jqFieldValue (note : NoteMetadata) (field : String) : JqVal :=
  if field == "path" then JqVal.vstr note.path
  else if field == "title" then JqVal.vstr note.title
  else if field == "date" then
    match note.date with
    | some d => JqVal.vstr d
    | none => JqVal.vnull
  else if field == "tags" then JqVal.vstrArr note.tags
  else JqVal.vnull

/-- Modelled from the spec: the truthiness, under jq's `select`, of the
binary form `.field op "value"` that `build_jq_expression` emits for
non-membership conditions.  Crucially, jq's `=` is an *assignment* whose
result is the updated note object — an object is truthy, so a compiled
`.field = "value"` selects every note.  `==`/`!=` are equality tests and
`<`, `<=`, `>`, `>=` use jq's total order.  Operator strings outside this
set are jq syntax errors and are excluded by `jqValidExpr`. -/
def jqCompare (lhs : JqVal) (op : String) (rhs : JqVal) : Bool :=
  if op == "=" then true
  else if op == "==" then jqEq lhs rhs
  else if op == "!=" then !(jqEq lhs rhs)
  else if op == "<" then jqLess lhs rhs
  else if op == "<=" then !(jqLess rhs lhs)
  else if op == ">" then jqLess rhs lhs
  else if op == ">=" then !(jqLess lhs rhs)
  else false

/-- A string that can sit between double quotes in a jq program without
changing the surrounding syntax: no `"` and no `\` characters. -/
def jqCleanStr (s : String) : Bool :=
  !(s.data.any (fun c => c == '"' || c == '\\'))

/-- A string that `.field` accepts as a jq identifier: nonempty,
ASCII-alphanumeric or `_` characters, not starting with a digit. -/
def jqIdentOk (s : String) : Bool :=
  match s.data with
  | [] => false
  | c :: cs => !c.isDigit && (c :: cs).all (fun ch => ch.isAlphanum || ch == '_')

/-- One of the seven operator spellings jq's grammar accepts in the
`.field op "value"` position. -/
def jqValidOp (op : String) : Bool :=
  op == "=" || op == "==" || op == "!=" || op == "<" || op == "<=" ||
    op == ">" || op == ">="

/-- Modelled from the spec: whether the string `build_jq_expression`
emits for this AST is a syntactically valid jq program (jq compiles the
whole filter before evaluating anything, so one bad leaf fails the whole
pipeline).  Tag membership leaves only embed the value; other leaves
embed the field name, the operator and the value verbatim. -/
def jqValidExpr : Expr → Bool
  | Expr.Condition field op value =>
    if to_lowercase field == "tag" && (op == "=" || op == "!=") then
      jqCleanStr value
    else jqIdentOk field && jqValidOp op && jqCleanStr value
  | Expr.And lhs rhs => jqValidExpr lhs && jqValidExpr rhs
  | Expr.Or lhs rhs => jqValidExpr lhs && jqValidExpr rhs
  | Expr.Not inner => jqValidExpr inner

/-- Modelled from the spec: the truthiness, on one note object, of the jq
filter `build_jq_expression` emits (assuming it is valid, see
`jqValidExpr`).  Tag membership compiles to `.tags | index("v") != null`
(membership) / `== null` (non-membership); other conditions to the binary
form handled by `jqCompare`; `and`/`or`/`not` are jq's truthiness
connectives.  The compiler's special case for `Not (tag = v)` emits the
non-membership form directly, whose truthiness coincides with negating
the membership form, so `Not` is uniformly truthiness negation. -/
def jqTruthy (note : NoteMetadata) : Expr → Bool
  | Expr.Condition field op value =>
    if to_lowercase field == "tag" && op == "=" then
      note.tags.any (fun t => t == value)
    else if to_lowercase field == "tag" && op == "!=" then
      !(note.tags.any (fun t => t == value))
    else jqCompare (jqFieldValue note field) op (JqVal.vstr value)
  | Expr.And lhs rhs => jqTruthy note lhs && jqTruthy note rhs
  | Expr.Or lhs rhs => jqTruthy note lhs || jqTruthy note rhs
  | Expr.Not inner => !(jqTruthy note inner)

/-- Modelled from the spec: the compiled-filter path of `query_notes`
(`src/query.rs`) on an explicit corpus: if the compiled filter is valid
jq, `map(select(...)) | map({path: .path, title: .title})` keeps exactly
the truthy notes and projects them; otherwise the external pipeline
fails. -/
def query_notes_compiled (ast : Expr) (notes : List NoteMetadata) :
    Except String (List (String × String)) :=
  if jqValidExpr ast then
    .ok ((notes.filter (fun note => jqTruthy note ast)).map
      (fun note => (note.path, note.title)))
  else .error "jq: syntax error"

/-! ## Auxiliary definitions for the statements below -/

/-- A single well-formed condition presented as query tokens: a field
identifier, an operator, and a value that is either a bare identifier or
a quoted string literal (the parser accepts both, identically). -/
structure CondSpec where
  field : String
  op : String
  value : String
  quoted : Bool

/-- The token stream of one condition. -/
def CondSpec.tokens (c : CondSpec) : List Token :=
  [Token.Identifier c.field, Token.Operator c.op,
    if c.quoted then Token.StringLiteral c.value else Token.Identifier c.value]

/-- The AST leaf one condition parses to. -/
def CondSpec.ast (c : CondSpec) : Expr :=
  Expr.Condition c.field c.op c.value

/-- The condition leaves on which the native evaluator and the
jq-semantics of the compiled filter coincide on every note that carries a
date: tag membership/non-membership (field case-insensitively `tag`,
operator `=` or `!=`), date comparisons with field spelled exactly
`date` and operator `!=`, `>=`, `<=`, `>` or `<`, and title
non-equality with field spelled exactly `title`; values must be free of
`"` and `\` so the emitted jq string is well formed. -/
def goodCond (field op value : String) : Bool :=
  jqCleanStr value &&
    ((to_lowercase field == "tag" && (op == "=" || op == "!=")) ||
      ((field == "date" &&
        (op == "!=" || (op == ">=" || (op == "<=" || (op == ">" || op == "<"))))) ||
      (field == "title" && op == "!=")))

/-- Queries all of whose condition leaves are `goodCond`. -/
def goodExpr : Expr → Bool
  | Expr.Condition f o v => goodCond f o v
  | Expr.And lhs rhs => goodExpr lhs && goodExpr rhs
  | Expr.Or lhs rhs => goodExpr lhs && goodExpr rhs
  | Expr.Not inner => goodExpr inner

/-- Trailing-token streams that a finished parse never consumes: streams
not starting with `and` or `or` (those two would re-enter the binary
loops of `parse_and` / `parse_or`). -/
def headSafe : List Token → Bool
  | Token.And :: _ => false
  | Token.Or :: _ => false
  | _ => true

/-- The four-note corpus of §8 of the specification. -/
def specCorpus : List NoteMetadata :=
  [⟨"note1.md", "Note One", some "2025-03-01", ["CLI"]⟩,
    ⟨"note2.md", "Note Two", some "2025-03-15", ["rust"]⟩,
    ⟨"note3.md", "Note Three", some "2025-03-20", ["CLI", "rust"]⟩,
    ⟨"note4.md", "Note Four", some "2025-04-05", ["CLI"]⟩]

/-- A one-note corpus whose note has no date, used to separate the two
backends. -/
def cexCorpus : List NoteMetadata :=
  [⟨"a.md", "A", none, []⟩]

end Notemancy

namespace Notemancy

/-! ## Helper lemmas -/

/-- The membership loop of the native tag test, `tags.iter().any(|t| t ==
value)`, decides list membership. -/
theorem any_beq_eq_decide_mem (l : List String) (v : String) :
    (l.any fun t => t == v) = decide (v ∈ l) := by
  induction l with
  | nil => rfl
  | cons x xs ih =>
    simp only [List.any_cons, ih, List.mem_cons]
    rcases eq_or_ne v x with h | h
    · subst h; simp
    · have hb : (x == v) = false := beq_eq_false_iff_ne.mpr (Ne.symm h)
      simp [hb, h]

/-! ## Claims about the tokenizer -/

/-- Claim C2: refuted evidence — the tokenizer is NOT total.  On the
input `"#"` (any character that is not whitespace, a parenthesis, a
quote, an operator character, and also not alphanumeric/`_`/`-`), the
identifier branch takes an empty run and consumes nothing, so the Rust
`while` loop never terminates: no amount of fuel completes the
tokenization. -/
theorem tokenize_stuck_on_hash : ∀ fuel : Nat, tokenizeF fuel "#".toList = none := by
  intro fuel
  induction fuel with
  | zero => rfl
  | succ n ih =>
    have h : tokenizeF (n + 1) "#".toList =
        (tokenizeF n "#".toList).map (Token.Identifier "" :: ·) := rfl
    rw [h, ih]
    rfl

/-! ## Claims about the parser -/

/-- Claim C3: operator precedence and associativity.  For all conditions
`A`, `B`, `C` (arbitrary field, operator and value, the value bare or
quoted): `A or B and C` parses as `Or(A, And(B, C))`; `not A and B`
parses as `And(Not(A), B)`; repeated `or` and repeated `and` associate to
the left; and parentheses override the precedence
(`(A or B) and C` parses as `And(Or(A, B), C)`).  The fuel `30` exceeds
the token count of every stream involved, so it is not a constraint. -/
theorem parse_precedence (a b c : CondSpec) :
    parse_query_tokens 30 (a.tokens ++ Token.Or :: b.tokens ++ Token.And :: c.tokens) =
      .ok (Expr.Or a.ast (Expr.And b.ast c.ast))
    ∧ parse_query_tokens 30 (Token.Not :: a.tokens ++ Token.And :: b.tokens) =
      .ok (Expr.And (Expr.Not a.ast) b.ast)
    ∧ parse_query_tokens 30 (a.tokens ++ Token.Or :: b.tokens ++ Token.Or :: c.tokens) =
      .ok (Expr.Or (Expr.Or a.ast b.ast) c.ast)
    ∧ parse_query_tokens 30 (a.tokens ++ Token.And :: b.tokens ++ Token.And :: c.tokens) =
      .ok (Expr.And (Expr.And a.ast b.ast) c.ast)
    ∧ parse_query_tokens 30
        (Token.LParen :: a.tokens ++ Token.Or :: b.tokens ++
          Token.RParen :: Token.And :: c.tokens) =
      .ok (Expr.And (Expr.Or a.ast b.ast) c.ast) := by
  obtain ⟨fa, oa, va, qa⟩ := a
  obtain ⟨fb, ob, vb, qb⟩ := b
  obtain ⟨fc, oc, vc, qc⟩ := c
  cases qa <;> cases qb <;> cases qc <;> exact ⟨rfl, rfl, rfl, rfl, rfl⟩

/-! ## Claims about the native evaluator's leaf semantics -/

/-- Claim C4: date condition semantics.  For a field that lowercases to
`date`: when the note carries a date, `=`, `!=`, `>=`, `<=`, `>`, `<`
evaluate to the corresponding lexicographic string comparison of the
note's date against the value; when the note has no date, every date
condition evaluates to false, whatever the operator and value. -/
theorem date_condition_semantics (note : NoteMetadata) (field value : String)
    (hf : to_lowercase field = "date") :
    (∀ d, note.date = some d →
      evaluate_expr note (Expr.Condition field "=" value) = (d == value)
      ∧ evaluate_expr note (Expr.Condition field "!=" value) = !(d == value)
      ∧ evaluate_expr note (Expr.Condition field ">=" value) = !(strLt d value)
      ∧ evaluate_expr note (Expr.Condition field "<=" value) = !(strLt value d)
      ∧ evaluate_expr note (Expr.Condition field ">" value) = strLt value d
      ∧ evaluate_expr note (Expr.Condition field "<" value) = strLt d value)
    ∧ (note.date = none →
      ∀ op, evaluate_expr note (Expr.Condition field op value) = false) := by
  constructor
  · intro d hd
    refine ⟨?_, ?_, ?_, ?_, ?_, ?_⟩ <;> (rw [evaluate_expr, hf, hd]; rfl)
  · intro hd op
    rw [evaluate_expr, hf, hd]
    rfl

/-- Witness for C4 at a concrete note and a case-varied field name. -/
theorem date_condition_semantics_witness :
    to_lowercase "Date" = "date"
    ∧ evaluate_expr ⟨"n1.md", "Note One", some "2025-03-15", []⟩
        (Expr.Condition "Date" ">=" "2025-03-01") = true := by
  refine ⟨rfl, ?_⟩
  have h := (date_condition_semantics ⟨"n1.md", "Note One", some "2025-03-15", []⟩
    "Date" "2025-03-01" rfl).1 "2025-03-15" rfl
  rw [h.2.2.1]
  rfl

/-- Claim C5: tag condition semantics.  For a field that lowercases to
`tag`: `=` tests membership of the value in the note's tag sequence,
`!=` tests non-membership, and every other operator evaluates to false
(no error). -/
theorem tag_condition_semantics (note : NoteMetadata) (field value : String)
    (hf : to_lowercase field = "tag") :
    evaluate_expr note (Expr.Condition field "=" value) = decide (value ∈ note.tags)
    ∧ evaluate_expr note (Expr.Condition field "!=" value) = !(decide (value ∈ note.tags))
    ∧ ∀ op, op ≠ "=" → op ≠ "!=" →
        evaluate_expr note (Expr.Condition field op value) = false := by
  refine ⟨?_, ?_, ?_⟩
  · rw [evaluate_expr, hf]
    exact any_beq_eq_decide_mem note.tags value
  · rw [evaluate_expr, hf]
    exact congrArg Bool.not (any_beq_eq_decide_mem note.tags value)
  · intro op h1 h2
    have h1' : (op == "=") = false := beq_eq_false_iff_ne.mpr h1
    have h2' : (op == "!=") = false := beq_eq_false_iff_ne.mpr h2
    rw [evaluate_expr, hf, h1', h2']
    rfl

/-- Witness for C5 at a concrete note, including a non-`=`/`!=`
operator evaluating to false instead of erroring. -/
theorem tag_condition_semantics_witness :
    to_lowercase "Tag" = "tag"
    ∧ evaluate_expr ⟨"n3.md", "Note Three", some "2025-03-20", ["CLI", "rust"]⟩
        (Expr.Condition "Tag" "=" "rust") = true
    ∧ evaluate_expr ⟨"n3.md", "Note Three", some "2025-03-20", ["CLI", "rust"]⟩
        (Expr.Condition "Tag" ">=" "rust") = false := by
  have h := tag_condition_semantics
    ⟨"n3.md", "Note Three", some "2025-03-20", ["CLI", "rust"]⟩ "Tag" "rust" rfl
  refine ⟨rfl, ?_, ?_⟩
  · rw [h.1]; rfl
  · exact h.2.2 ">=" (by decide) (by decide)

/-- Claim C6: title and unknown-field leaf semantics.  A `title`
condition (field lowercasing to `title`) is exact string equality under
`=`, its negation under `!=`, and false under any other operator; a
condition whose field lowercases to none of `tag`, `date`, `title`
evaluates to false unconditionally.  Leaf evaluation is a total Bool
function, so no case raises an error. -/
theorem title_unknown_semantics (note : NoteMetadata) (field op value : String) :
    (to_lowercase field = "title" →
      evaluate_expr note (Expr.Condition field "=" value) = (note.title == value)
      ∧ evaluate_expr note (Expr.Condition field "!=" value) = !(note.title == value)
      ∧ (op ≠ "=" → op ≠ "!=" →
        evaluate_expr note (Expr.Condition field op value) = false))
    ∧ (to_lowercase field ≠ "tag" → to_lowercase field ≠ "date" →
      to_lowercase field ≠ "title" →
      evaluate_expr note (Expr.Condition field op value) = false) := by
  constructor
  · intro hf
    refine ⟨?_, ?_, ?_⟩
    · rw [evaluate_expr, hf]; rfl
    · rw [evaluate_expr, hf]; rfl
    · intro h1 h2
      have h1' : (op == "=") = false := beq_eq_false_iff_ne.mpr h1
      have h2' : (op == "!=") = false := beq_eq_false_iff_ne.mpr h2
      rw [evaluate_expr, hf, h1', h2']
      rfl
  · intro ht hd hti
    have ht' : (to_lowercase field == "tag") = false := beq_eq_false_iff_ne.mpr ht
    have hd' : (to_lowercase field == "date") = false := beq_eq_false_iff_ne.mpr hd
    have hti' : (to_lowercase field == "title") = false := beq_eq_false_iff_ne.mpr hti
    rw [evaluate_expr, ht', hd', hti']
    rfl

/-! ## Claims about the filter compiler -/

/-- Claim C7: the compiler's negation special case.  `Not(inner)` with
`inner` exactly a tag-equality condition (field lowercasing to `tag`,
operator `=`) emits the tag-non-membership form directly; for every
other inner expression it emits the piped negation of the compiled inner
expression. -/
theorem not_compilation (field op value : String) (inner : Expr) :
    (to_lowercase field = "tag" → op = "=" →
      build_jq_expression (Expr.Not (Expr.Condition field op value)) =
        "(.tags | index(\"" ++ value ++ "\") == null)")
    ∧ ((∀ f v, inner = Expr.Condition f "=" v → to_lowercase f ≠ "tag") →
      build_jq_expression (Expr.Not inner) =
        "(" ++ build_jq_expression inner ++ " | not)") := by
  constructor
  · intro hf hop
    subst hop
    rw [build_jq_expression, hf]
    rfl
  · intro h
    cases inner with
    | Condition f o v =>
      by_cases ho : o = "="
      · subst ho
        have hf : (to_lowercase f == "tag") = false :=
          beq_eq_false_iff_ne.mpr (h f v rfl)
        conv_lhs => rw [build_jq_expression]
        rw [hf]
        rfl
      · have ho' : (o == "=") = false := beq_eq_false_iff_ne.mpr ho
        conv_lhs => rw [build_jq_expression]
        rw [ho', Bool.and_false]
        rfl
    | And lhs rhs => rfl
    | Or lhs rhs => rfl
    | Not e => rfl

/-- Witness for C7: the special case fires on `not tag = "CLI"`, and a
negated title condition compiles to the piped negation. -/
theorem not_compilation_witness :
    build_jq_expression (Expr.Not (Expr.Condition "tag" "=" "CLI")) =
      "(.tags | index(\"CLI\") == null)"
    ∧ build_jq_expression (Expr.Not (Expr.Condition "title" "=" "A")) =
      "(" ++ build_jq_expression (Expr.Condition "title" "=" "A") ++ " | not)" := by
  constructor
  · exact (not_compilation "tag" "=" "CLI" (Expr.Condition "title" "=" "A")).1 rfl rfl
  · exact (not_compilation "tag" "=" "CLI" (Expr.Condition "title" "=" "A")).2
      (by intro f v h; injection h with h1 h2 h3; subst h1; decide)

/-- Claim C10: the compiler escapes nothing.  Every non-tag condition
(and every tag condition with an operator other than `=`/`!=`) compiles
to the literal concatenation `"." ++ field ++ " " ++ op ++ " \"" ++
value ++ "\""`, and the two tag membership forms embed the value
verbatim between the quotes of `index("...")` — so a `"` or `\` in a
field or value lands unescaped in the filter string. -/
theorem condition_no_escaping (field op value : String) :
    (to_lowercase field ≠ "tag" →
      build_jq_expression (Expr.Condition field op value) =
        "." ++ field ++ " " ++ op ++ " \"" ++ value ++ "\"")
    ∧ (to_lowercase field = "tag" → op ≠ "=" → op ≠ "!=" →
      build_jq_expression (Expr.Condition field op value) =
        "." ++ field ++ " " ++ op ++ " \"" ++ value ++ "\"")
    ∧ (to_lowercase field = "tag" → op = "=" →
      build_jq_expression (Expr.Condition field op value) =
        "(.tags | index(\"" ++ value ++ "\") != null)")
    ∧ (to_lowercase field = "tag" → op = "!=" →
      build_jq_expression (Expr.Condition field op value) =
        "(.tags | index(\"" ++ value ++ "\") == null)") := by
  refine ⟨?_, ?_, ?_, ?_⟩
  · intro h
    have h' : (to_lowercase field == "tag") = false := beq_eq_false_iff_ne.mpr h
    rw [build_jq_expression, h']
    rfl
  · intro h h1 h2
    have h1' : (op == "=") = false := beq_eq_false_iff_ne.mpr h1
    have h2' : (op == "!=") = false := beq_eq_false_iff_ne.mpr h2
    rw [build_jq_expression, h, h1', h2']
    rfl
  · intro h ho
    subst ho
    rw [build_jq_expression, h]
    rfl
  · intro h ho
    subst ho
    rw [build_jq_expression, h]
    rfl

/-- Witness for C10: a value containing a double quote is interpolated
verbatim, producing a jq-syntax-breaking filter string. -/
theorem condition_no_escaping_witness :
    to_lowercase "title" ≠ "tag"
    ∧ build_jq_expression (Expr.Condition "title" "=" "a\"b") =
      ".title = \"a\"b\"" := by
  refine ⟨by decide, ?_⟩
  rw [(condition_no_escaping "title" "=" "a\"b").1 (by decide)]
  rfl

/-- Witness for C6: a `Title` condition and an unknown field, on a
concrete note. -/
theorem title_unknown_semantics_witness :
    to_lowercase "Title" = "title"
    ∧ evaluate_expr ⟨"n1.md", "Note One", some "2025-03-01", []⟩
        (Expr.Condition "Title" "=" "Note One") = true
    ∧ evaluate_expr ⟨"n1.md", "Note One", some "2025-03-01", []⟩
        (Expr.Condition "status" "!=" "draft") = false := by
  refine ⟨rfl, ?_, ?_⟩
  · rw [(title_unknown_semantics ⟨"n1.md", "Note One", some "2025-03-01", []⟩
      "Title" "=" "Note One").1 rfl |>.1]
    rfl
  · exact (title_unknown_semantics ⟨"n1.md", "Note One", some "2025-03-01", []⟩
      "status" "!=" "draft").2 (by decide) (by decide) (by decide)

/-! ## Trailing-token behavior of the parser -/

/-- Binding an `Except` success. -/
theorem except_bind_ok {α β : Type} (a : α) (f : α → Except String β) :
    (Except.ok a).bind f = f a := rfl

/-- Binding an `Except` error. -/
theorem except_bind_error {α β : Type} (msg : String) (f : α → Except String β) :
    (Except.error msg).bind f = .error msg := rfl

/-- Running `parse_primary` on an empty stream never succeeds. -/
theorem parse_primary_nil (n : Nat) (e : Expr) (rest : List Token) :
    parse_primary n [] ≠ .ok (e, rest) := by
  cases n <;> simp [parse_primary, parse_condition]

/-- A stream whose head is not `or` does not re-enter the `or` loop. -/
theorem parse_or_rest_stop (n : Nat) (acc : Expr) (ext : List Token)
    (hext : headSafe ext = true) :
    parse_or_rest (n + 1) acc ext = .ok (acc, ext) := by
  cases ext with
  | nil => rfl
  | cons t rest =>
    have ht : t ≠ Token.Or := by
      intro hh
      subst hh
      simp [headSafe] at hext
    rw [parse_or_rest, if_neg ht]

/-- A stream whose head is not `and` does not re-enter the `and` loop. -/
theorem parse_and_rest_stop (n : Nat) (acc : Expr) (ext : List Token)
    (hext : headSafe ext = true) :
    parse_and_rest (n + 1) acc ext = .ok (acc, ext) := by
  cases ext with
  | nil => rfl
  | cons t rest =>
    have ht : t ≠ Token.And := by
      intro hh
      subst hh
      simp [headSafe] at hext
    rw [parse_and_rest, if_neg ht]

/-- Since `parse_condition` reads only the first three tokens, appending
tokens to the stream preserves a successful parse. -/
theorem parse_condition_extension (ext : List Token) :
    ∀ ts e rest, parse_condition ts = .ok (e, rest) →
      parse_condition (ts ++ ext) = .ok (e, rest ++ ext) := by
  intro ts e rest h
  cases ts with
  | nil => exact absurd h (by simp [parse_condition])
  | cons t1 r1 =>
    cases t1 with
    | Identifier f =>
      cases r1 with
      | nil => exact absurd h (by simp [parse_condition])
      | cons t2 r2 =>
        cases t2 with
        | Operator o =>
          cases r2 with
          | nil => exact absurd h (by simp [parse_condition])
          | cons t3 r3 =>
            cases t3 with
            | Identifier v =>
              have h' : (Except.ok (Expr.Condition f o v, r3) : PResult) = .ok (e, rest) := h
              injection h' with hp
              injection hp with h1 h2
              subst h1; subst h2
              rfl
            | StringLiteral v =>
              have h' : (Except.ok (Expr.Condition f o v, r3) : PResult) = .ok (e, rest) := h
              injection h' with hp
              injection hp with h1 h2
              subst h1; subst h2
              rfl
            | Operator s => exact absurd h (by simp [parse_condition])
            | And => exact absurd h (by simp [parse_condition])
            | Or => exact absurd h (by simp [parse_condition])
            | Not => exact absurd h (by simp [parse_condition])
            | LParen => exact absurd h (by simp [parse_condition])
            | RParen => exact absurd h (by simp [parse_condition])
        | Identifier s => exact absurd h (by simp [parse_condition])
        | StringLiteral s => exact absurd h (by simp [parse_condition])
        | And => exact absurd h (by simp [parse_condition])
        | Or => exact absurd h (by simp [parse_condition])
        | Not => exact absurd h (by simp [parse_condition])
        | LParen => exact absurd h (by simp [parse_condition])
        | RParen => exact absurd h (by simp [parse_condition])
    | Operator s => exact absurd h (by simp [parse_condition])
    | StringLiteral s => exact absurd h (by simp [parse_condition])
    | And => exact absurd h (by simp [parse_condition])
    | Or => exact absurd h (by simp [parse_condition])
    | Not => exact absurd h (by simp [parse_condition])
    | LParen => exact absurd h (by simp [parse_condition])
    | RParen => exact absurd h (by simp [parse_condition])

/-- Since `expect_rparen` reads only the first token, appending tokens
preserves a successful parse. -/
theorem expect_rparen_extension (ext : List Token) (e0 : Expr) :
    ∀ ts e rest, expect_rparen e0 ts = .ok (e, rest) →
      expect_rparen e0 (ts ++ ext) = .ok (e, rest ++ ext) := by
  intro ts e rest h
  cases ts with
  | nil => exact absurd h (by simp [expect_rparen])
  | cons t r =>
    by_cases ht : t = Token.RParen
    · subst ht
      rw [expect_rparen, if_pos rfl] at h
      injection h with hp
      injection hp with h1 h2
      subst h1; subst h2
      rw [List.cons_append, expect_rparen, if_pos rfl]
    · rw [expect_rparen, if_neg ht] at h
      exact absurd h (by simp)

/-- Appending tokens that do not begin with `and` or `or` to a stream
preserves every successful parse of every parser production, leaving the
appended tokens unconsumed: every peek at the head of an unconsumed
suffix decides exactly as it did before the append. -/
theorem parse_extension (ext : List Token) (hext : headSafe ext = true) :
    ∀ fuel : Nat,
      (∀ ts e rest, parse_or fuel ts = .ok (e, rest) →
          parse_or fuel (ts ++ ext) = .ok (e, rest ++ ext))
      ∧ (∀ acc ts e rest, parse_or_rest fuel acc ts = .ok (e, rest) →
          parse_or_rest fuel acc (ts ++ ext) = .ok (e, rest ++ ext))
      ∧ (∀ ts e rest, parse_and fuel ts = .ok (e, rest) →
          parse_and fuel (ts ++ ext) = .ok (e, rest ++ ext))
      ∧ (∀ acc ts e rest, parse_and_rest fuel acc ts = .ok (e, rest) →
          parse_and_rest fuel acc (ts ++ ext) = .ok (e, rest ++ ext))
      ∧ (∀ ts e rest, parse_unary fuel ts = .ok (e, rest) →
          parse_unary fuel (ts ++ ext) = .ok (e, rest ++ ext))
      ∧ (∀ ts e rest, parse_primary fuel ts = .ok (e, rest) →
          parse_primary fuel (ts ++ ext) = .ok (e, rest ++ ext)) := by
  intro fuel
  induction fuel with
  | zero =>
    refine ⟨fun ts e rest h => ?_, fun acc ts e rest h => ?_, fun ts e rest h => ?_,
      fun acc ts e rest h => ?_, fun ts e rest h => ?_, fun ts e rest h => ?_⟩ <;>
      exact absurd h (by simp [parse_or, parse_or_rest, parse_and, parse_and_rest,
        parse_unary, parse_primary])
  | succ n ih =>
    obtain ⟨ihOr, ihOrRest, ihAnd, ihAndRest, ihUnary, ihPrimary⟩ := ih
    refine ⟨fun ts e rest h => ?_, fun acc ts e rest h => ?_, fun ts e rest h => ?_,
      fun acc ts e rest h => ?_, fun ts e rest h => ?_, fun ts e rest h => ?_⟩
    · rw [parse_or] at h ⊢
      cases hA : parse_and n ts with
      | error msg =>
        rw [hA, except_bind_error] at h
        exact Except.noConfusion h
      | ok p =>
        obtain ⟨lhs, r⟩ := p
        rw [hA, except_bind_ok] at h
        rw [ihAnd ts lhs r hA, except_bind_ok]
        exact ihOrRest lhs r e rest h
    · cases ts with
      | nil =>
        rw [parse_or_rest] at h
        injection h with hp
        injection hp with h1 h2
        subst h1; subst h2
        exact parse_or_rest_stop n acc ext hext
      | cons t ts2 =>
        rw [parse_or_rest] at h
        by_cases ht : t = Token.Or
        · subst ht
          rw [if_pos rfl] at h
          cases hA : parse_and n ts2 with
          | error msg =>
            rw [hA, except_bind_error] at h
            exact Except.noConfusion h
          | ok p =>
            obtain ⟨rhs, r2⟩ := p
            rw [hA, except_bind_ok] at h
            rw [List.cons_append, parse_or_rest, if_pos rfl,
              ihAnd ts2 rhs r2 hA, except_bind_ok]
            exact ihOrRest (Expr.Or acc rhs) r2 e rest h
        · rw [if_neg ht] at h
          injection h with hp
          injection hp with h1 h2
          subst h1; subst h2
          rw [List.cons_append, parse_or_rest, if_neg ht]
    · rw [parse_and] at h ⊢
      cases hU : parse_unary n ts with
      | error msg =>
        rw [hU, except_bind_error] at h
        exact Except.noConfusion h
      | ok p =>
        obtain ⟨lhs, r⟩ := p
        rw [hU, except_bind_ok] at h
        rw [ihUnary ts lhs r hU, except_bind_ok]
        exact ihAndRest lhs r e rest h
    · cases ts with
      | nil =>
        rw [parse_and_rest] at h
        injection h with hp
        injection hp with h1 h2
        subst h1; subst h2
        exact parse_and_rest_stop n acc ext hext
      | cons t ts2 =>
        rw [parse_and_rest] at h
        by_cases ht : t = Token.And
        · subst ht
          rw [if_pos rfl] at h
          cases hU : parse_unary n ts2 with
          | error msg =>
            rw [hU, except_bind_error] at h
            exact Except.noConfusion h
          | ok p =>
            obtain ⟨rhs, r2⟩ := p
            rw [hU, except_bind_ok] at h
            rw [List.cons_append, parse_and_rest, if_pos rfl,
              ihUnary ts2 rhs r2 hU, except_bind_ok]
            exact ihAndRest (Expr.And acc rhs) r2 e rest h
        · rw [if_neg ht] at h
          injection h with hp
          injection hp with h1 h2
          subst h1; subst h2
          rw [List.cons_append, parse_and_rest, if_neg ht]
    · cases ts with
      | nil =>
        rw [parse_unary] at h
        exact absurd h (parse_primary_nil n e rest)
      | cons t ts2 =>
        rw [parse_unary] at h
        by_cases ht : t = Token.Not
        · subst ht
          rw [if_pos rfl] at h
          cases hU : parse_unary n ts2 with
          | error msg =>
            rw [hU, except_bind_error] at h
            exact Except.noConfusion h
          | ok p =>
            obtain ⟨e1, r1⟩ := p
            rw [hU, except_bind_ok] at h
            have h' : (Except.ok (Expr.Not e1, r1) : PResult) = .ok (e, rest) := h
            injection h' with hp
            injection hp with h1 h2
            subst h1; subst h2
            rw [List.cons_append, parse_unary, if_pos rfl,
              ihUnary ts2 e1 r1 hU, except_bind_ok]
        · rw [if_neg ht] at h
          rw [List.cons_append, parse_unary, if_neg ht]
          exact ihPrimary (t :: ts2) e rest h
    · cases ts with
      | nil =>
        rw [parse_primary] at h
        exact absurd h (by simp [parse_condition])
      | cons t ts2 =>
        rw [parse_primary] at h
        by_cases ht : t = Token.LParen
        · subst ht
          rw [if_pos rfl] at h
          cases hO : parse_or n ts2 with
          | error msg =>
            rw [hO, except_bind_error] at h
            exact Except.noConfusion h
          | ok p =>
            obtain ⟨e1, r2⟩ := p
            rw [hO, except_bind_ok] at h
            have h' : expect_rparen e1 r2 = .ok (e, rest) := h
            rw [List.cons_append, parse_primary, if_pos rfl,
              ihOr ts2 e1 r2 hO, except_bind_ok]
            exact expect_rparen_extension ext e1 r2 e rest h'
        · rw [if_neg ht] at h
          rw [List.cons_append, parse_primary, if_neg ht]
          exact parse_condition_extension ext (t :: ts2) e rest h

/-- Claim C8 counterexample: the token stream of the complete well-formed
expression `a = b` followed by the single additional token `and` makes
the parser fail ("Expected field name") instead of returning the leading
expression with an Ok: the `and` loop consumes the trailing token and
then demands another operand. -/
theorem trailing_tokens_cex :
    parse_or 20 [Token.Identifier "a", Token.Operator "=", Token.Identifier "b"] =
      .ok (Expr.Condition "a" "=" "b", [])
    ∧ parse_query_tokens 20
        [Token.Identifier "a", Token.Operator "=", Token.Identifier "b", Token.And] =
      .error "Expected field name" := ⟨rfl, rfl⟩

/-- Claim C8, amended: trailing tokens after a complete well-formed
expression are silently ignored by the parser provided the first
trailing token is neither `and` nor `or` (those re-enter the binary
loops, consuming trailing tokens and possibly failing). -/
theorem trailing_tokens_lenient (fuel : Nat) (ts ext : List Token) (e : Expr)
    (h : parse_or fuel ts = .ok (e, []))
    (_hne : ext ≠ [])
    (hext : headSafe ext = true) :
    parse_query_tokens fuel (ts ++ ext) = .ok e := by
  have h2 := (parse_extension ext hext fuel).1 ts e [] h
  rw [List.nil_append] at h2
  rw [parse_query_tokens, h2]

/-! ## Backend equivalence -/

/-- Every `goodExpr` query compiles to a syntactically valid jq filter. -/
theorem goodExpr_jqValid : ∀ e, goodExpr e = true → jqValidExpr e = true := by
  intro e
  induction e with
  | Condition f o v =>
    intro h
    simp only [goodExpr, goodCond, Bool.and_eq_true, Bool.or_eq_true, beq_iff_eq] at h
    obtain ⟨hv, hcase⟩ := h
    rcases hcase with ⟨htag, ho⟩ | ⟨rfl, ho⟩ | ⟨rfl, rfl⟩
    · rcases ho with rfl | rfl <;> (rw [jqValidExpr, htag]; exact hv)
    · rcases ho with rfl | rfl | rfl | rfl | rfl <;> (rw [jqValidExpr]; exact hv)
    · rw [jqValidExpr]; exact hv
  | And lhs rhs ihl ihr =>
    intro h
    simp only [goodExpr, Bool.and_eq_true] at h
    rw [jqValidExpr, ihl h.1, ihr h.2]
    rfl
  | Or lhs rhs ihl ihr =>
    intro h
    simp only [goodExpr, Bool.and_eq_true] at h
    rw [jqValidExpr, ihl h.1, ihr h.2]
    rfl
  | Not inner ihe =>
    intro h
    simp only [goodExpr] at h
    rw [jqValidExpr, ihe h]

/-- On every note that carries a date, the jq truthiness of the compiled
filter of a `goodExpr` query coincides with the native evaluator. -/
theorem good_jq_eq_native : ∀ (e : Expr) (note : NoteMetadata),
    goodExpr e = true → note.date.isSome = true →
    jqTruthy note e = evaluate_expr note e := by
  intro e
  induction e with
  | Condition f o v =>
    intro note h hd
    simp only [goodExpr, goodCond, Bool.and_eq_true, Bool.or_eq_true, beq_iff_eq] at h
    obtain ⟨hv, hcase⟩ := h
    rcases hcase with ⟨htag, ho⟩ | ⟨rfl, ho⟩ | ⟨rfl, rfl⟩
    · rcases ho with rfl | rfl <;> (rw [jqTruthy, evaluate_expr, htag]; rfl)
    · obtain ⟨d, hdd⟩ := Option.isSome_iff_exists.mp hd
      rcases ho with rfl | rfl | rfl | rfl | rfl <;>
        (rw [jqTruthy, evaluate_expr, jqFieldValue, hdd]; rfl)
    · rw [jqTruthy, evaluate_expr]; rfl
  | And lhs rhs ihl ihr =>
    intro note h hd
    simp only [goodExpr, Bool.and_eq_true] at h
    rw [jqTruthy, evaluate_expr, ihl note h.1 hd, ihr note h.2 hd]
  | Or lhs rhs ihl ihr =>
    intro note h hd
    simp only [goodExpr, Bool.and_eq_true] at h
    rw [jqTruthy, evaluate_expr, ihl note h.1 hd, ihr note h.2 hd]
  | Not inner ihe =>
    intro note h hd
    simp only [goodExpr] at h
    rw [jqTruthy, evaluate_expr, ihe note h hd]

/-- Claim C1 counterexample: the query `foo != bar` parses, yet on a
one-note corpus whose note has no date the native path matches nothing
(unknown fields evaluate to false) while the compiled filter
`.foo != "bar"` is `null != "bar"`, true in jq, so the compiled path
returns the note: the two backends disagree as sets. -/
theorem backend_equivalence_cex :
    parse_query 100 "foo != bar" = .ok (Expr.Condition "foo" "!=" "bar")
    ∧ query_notes_native (Expr.Condition "foo" "!=" "bar") cexCorpus = []
    ∧ query_notes_compiled (Expr.Condition "foo" "!=" "bar") cexCorpus =
        .ok [("a.md", "A")] := ⟨rfl, rfl, rfl⟩

/-- Claim C1, amended: the two backends agree — indeed return
identically ordered lists, hence in particular the same set of
`(path, title)` pairs — for every query that parses to an AST all of
whose conditions are tag membership tests (`tag`/any case, `=` or `!=`),
date comparisons (field exactly `date`, operator `!=`, `>=`, `<=`, `>`
or `<`), or title non-equality (field exactly `title`), with values free
of `"` and `\`, over every corpus in which every note carries a date. -/
theorem backend_equivalence_good (q : String) (fuel : Nat) (ast : Expr)
    (corpus : List NoteMetadata)
    (_hq : parse_query fuel q = .ok ast)
    (hg : goodExpr ast = true)
    (hd : ∀ n ∈ corpus, n.date.isSome = true) :
    query_notes_compiled ast corpus = .ok (query_notes_native ast corpus) := by
  rw [query_notes_compiled, goodExpr_jqValid ast hg, if_pos rfl, query_notes_native]
  congr 1
  congr 1
  apply List.filter_congr
  intro n hn
  exact good_jq_eq_native ast n hg (hd n hn)

/-- Witness for the amended C1: one of the specification's own example
queries, on the specification's four-note corpus. -/
theorem backend_equivalence_good_witness :
    parse_query 100 "date >= \"2025-03-01\" and not tag = \"CLI\"" =
      .ok (Expr.And (Expr.Condition "date" ">=" "2025-03-01")
        (Expr.Not (Expr.Condition "tag" "=" "CLI")))
    ∧ goodExpr (Expr.And (Expr.Condition "date" ">=" "2025-03-01")
        (Expr.Not (Expr.Condition "tag" "=" "CLI"))) = true
    ∧ (∀ n ∈ specCorpus, n.date.isSome = true)
    ∧ query_notes_compiled
        (Expr.And (Expr.Condition "date" ">=" "2025-03-01")
          (Expr.Not (Expr.Condition "tag" "=" "CLI"))) specCorpus =
      .ok (query_notes_native
        (Expr.And (Expr.Condition "date" ">=" "2025-03-01")
          (Expr.Not (Expr.Condition "tag" "=" "CLI"))) specCorpus) :=
  ⟨rfl, rfl, by decide,
    backend_equivalence_good "date >= \"2025-03-01\" and not tag = \"CLI\"" 100
      (Expr.And (Expr.Condition "date" ">=" "2025-03-01")
        (Expr.Not (Expr.Condition "tag" "=" "CLI"))) specCorpus rfl rfl (by decide)⟩

/-- Witness for the amended C8: `a = b` followed by a stray `)` parses
to the bare condition. -/
theorem trailing_tokens_lenient_witness :
    parse_or 20 [Token.Identifier "a", Token.Operator "=", Token.Identifier "b"] =
      .ok (Expr.Condition "a" "=" "b", [])
    ∧ parse_query_tokens 20
        ([Token.Identifier "a", Token.Operator "=", Token.Identifier "b"] ++
          [Token.RParen]) =
      .ok (Expr.Condition "a" "=" "b") :=
  ⟨rfl, trailing_tokens_lenient 20
    [Token.Identifier "a", Token.Operator "=", Token.Identifier "b"]
    [Token.RParen] (Expr.Condition "a" "=" "b") rfl (by simp) rfl⟩

end Notemancy
